import Mathlib

/-!
Verification of the Educational RAG System (document_processor.py,
embedding_storage.py, rag_query.py, main.py, interactive.py).

This development shallowly embeds the pipeline's pure logic:

* the chunker invoked by `split_documents` in src/document_processor.py,
  namely LangChain's `RecursiveCharacterTextSplitter` with the repository's
  configuration (`separators=["\n\n", "\n", ".", " ", ""]`,
  `keep_separator=True`, `strip_whitespace=True`, `length_function=len`),
  together with the metadata-stamping pass of `split_documents`;
* `load_documents` from src/document_processor.py, with the two directory
  loaders abstracted as `Except` results;
* `query_ollama` and `rag_query` from src/rag_query.py, with the embedding
  and vector-store retrieval (`retrieve_documents`) and the HTTP transport
  abstracted as oracles, and the outbound generation requests logged so
  that temporal claims about "no generation call" are expressible;
* the `query` command branch of `main` from src/main.py.

Texts manipulated by the splitter are embedded as `List Char`; texts that
only flow through prompt assembly stay as `String`.  All definitions are
structurally recursive so that concrete runs reduce inside the kernel.
-/

/-- ASCII whitespace characters removed by Python's `str.strip()`.  (Python
also strips some Unicode-only space code points; none occur in this
development or in the separator list.) -/
def pyWs (c : Char) : Bool :=
  c = ' ' || c = '\t' || c = '\n' || c = '\r' || c = '\x0b' || c = '\x0c'

/-- Python `str.strip()`: remove leading and trailing whitespace. -/
def pyStrip (s : List Char) : List Char :=
  ((s.dropWhile pyWs).reverse.dropWhile pyWs).reverse

/-- Scanner for `basename`: keep the characters seen since the most recent
path separator (accumulated in reverse). -/
def basenameAux (acc : List Char) : List Char → List Char
  | [] => acc.reverse
  | c :: rest => if c = '/' then basenameAux [] rest else basenameAux (c :: acc) rest

/-- Python `os.path.basename` on POSIX paths: the part after the last `/`. -/
def basename (s : String) : String :=
  String.mk (basenameAux [] s.data)

/-- Occurrence test used by the splitter's separator selection:
`re.search(re.escape(sep), text)` succeeds iff `sep` occurs contiguously in
`text` (the empty separator matches everywhere). -/
def occursIn (sep : List Char) : List Char → Bool
  | [] => sep.isEmpty
  | c :: rest => sep.isPrefixOf (c :: rest) || occursIn sep rest

/-- Leftmost-first split of `text` at every non-overlapping occurrence of
`sep`, accumulating the current piece in reversed form in `acc`; this is the
piece list produced by `re.split` on the escaped separator.  The fuel
argument bounds recursion depth; each step consumes at least one character,
so fuel `text.length` is exhaustive and the zero-fuel completion (close the
remaining text as one piece) is unreachable from `splitTextKeepSep`. -/
def splitAuxF (sep : List Char) : Nat → List Char → List Char → List (List Char)
  | _, acc, [] => [acc.reverse]
  | 0, acc, text => [acc.reverse ++ text]
  | fuel + 1, acc, c :: rest =>
      if !sep.isEmpty && sep.isPrefixOf (c :: rest) then
        acc.reverse :: splitAuxF sep fuel [] ((c :: rest).drop sep.length)
      else
        splitAuxF sep fuel (c :: acc) rest

/-- LangChain `_split_text_with_regex` with `keep_separator=True`: split on
the separator, re-attach each separator occurrence to the front of the piece
that follows it, and drop empty pieces.  The empty separator splits into
single characters (the `else: splits = list(text)` branch). -/
def splitTextKeepSep (sep text : List Char) : List (List Char) :=
  (if sep.isEmpty then
    text.map (fun c => [c])
  else
    match splitAuxF sep text.length [] text with
    | [] => []
    | t0 :: rest => t0 :: rest.map (fun t => sep ++ t)).filter (fun s => !s.isEmpty)

/-- Separator-selection loop of LangChain `_split_text`: the first separator
that is empty or occurs in the text is chosen; the remaining separators
become the recursion list (left empty when the chosen separator is the empty
string, exactly as in the Python loop).  `dflt` is `separators[-1]`, the
fallthrough value when no separator matches. -/
def getSeparatorAux (dflt : List Char) (text : List Char) :
    List (List Char) → List Char × List (List Char)
  | [] => (dflt, [])
  | s :: rest =>
      if s.isEmpty then ([], [])
      else if occursIn s text then (s, rest)
      else getSeparatorAux dflt text rest

/-- Separator selection over the full separator list. -/
def getSeparator (separators : List (List Char)) (text : List Char) :
    List Char × List (List Char) :=
  getSeparatorAux (separators.getLastD []) text separators

/-- Pop loop of LangChain `_merge_splits`: while the running total exceeds
`chunk_overlap`, or the next split would overflow `chunk_size` and the total
is positive, drop the oldest split from the current document window.
`d_len` is the length of the incoming split. -/
def popWhile (chunk_size chunk_overlap separator_len d_len : Nat) :
    List (List Char) → Nat → List (List Char) × Nat
  | [], total => ([], total)
  | c :: rest, total =>
      if total > chunk_overlap ∨
          (total + d_len + (if rest.isEmpty then 0 else separator_len) > chunk_size ∧
            0 < total) then
        popWhile chunk_size chunk_overlap separator_len d_len rest
          (total - (c.length + (if rest.isEmpty then 0 else separator_len)))
      else
        (c :: rest, total)

/-- LangChain `_join_docs`: join the window with the separator, strip
whitespace, and drop the chunk entirely when nothing remains. -/
def joinDocs (separator : List Char) (docs : List (List Char)) : Option (List Char) :=
  let text := pyStrip (List.intercalate separator docs)
  if text.isEmpty then none else some text

/-- Main loop of LangChain `_merge_splits`: greedily pack splits into a
window of at most `chunk_size` characters; on overflow emit the joined and
stripped window and retain up to `chunk_overlap` characters of trailing
splits as the next window's prefix. -/
def mergeLoop (chunk_size chunk_overlap : Nat) (separator : List Char) :
    List (List Char) → List (List Char) → Nat → List (List Char) → List (List Char)
  | [], current_doc, _total, docs =>
      match joinDocs separator current_doc with
      | some d => docs ++ [d]
      | none => docs
  | d :: rest, current_doc, total, docs =>
      if total + d.length + (if current_doc.isEmpty then 0 else separator.length) >
            chunk_size ∧ current_doc.isEmpty = false then
        let docs1 :=
          match joinDocs separator current_doc with
          | some dd => docs ++ [dd]
          | none => docs
        let pw := popWhile chunk_size chunk_overlap separator.length d.length
          current_doc total
        mergeLoop chunk_size chunk_overlap separator rest (pw.1 ++ [d])
          (pw.2 + d.length + (if 1 < (pw.1 ++ [d]).length then separator.length else 0))
          docs1
      else
        mergeLoop chunk_size chunk_overlap separator rest (current_doc ++ [d])
          (total + d.length +
            (if 1 < (current_doc ++ [d]).length then separator.length else 0))
          docs

/-- LangChain `_merge_splits` entry point. -/
def mergeSplits (chunk_size chunk_overlap : Nat) (separator : List Char)
    (splits : List (List Char)) : List (List Char) :=
  mergeLoop chunk_size chunk_overlap separator splits [] 0 []

/-- Per-split loop of LangChain `_split_text`: accumulate splits strictly
shorter than `chunk_size` into `good`, flushing them through `_merge_splits`
(whose join separator is the empty string because `keep_separator=True`)
whenever an oversized split arrives; an oversized split is emitted as-is
when no finer separators remain (`split_rest = none`) and is otherwise split
recursively (`split_rest = some f`). -/
def goSplits (chunk_size chunk_overlap : Nat)
    (split_rest : Option (List Char → List (List Char))) :
    List (List Char) → List (List Char) → List (List Char) → List (List Char)
  | [], good, final =>
      if good.isEmpty then final
      else final ++ mergeSplits chunk_size chunk_overlap [] good
  | s :: rest, good, final =>
      if s.length < chunk_size then
        goSplits chunk_size chunk_overlap split_rest rest (good ++ [s]) final
      else
        let final1 :=
          if good.isEmpty then final
          else final ++ mergeSplits chunk_size chunk_overlap [] good
        let final2 :=
          match split_rest with
          | none => final1 ++ [s]
          | some f => final1 ++ f s
        goSplits chunk_size chunk_overlap split_rest rest [] final2

/-- LangChain `RecursiveCharacterTextSplitter._split_text`.  The fuel
argument bounds the recursion depth through ever-finer separator lists; each
recursive call passes the strictly shorter list returned by `getSeparator`,
so fuel equal to the separator-list length is exhaustive, and the zero-fuel
completion coincides with the (in Python unreachable) empty-separator-list
case. -/
def splitTextFuel (chunk_size chunk_overlap : Nat) :
    Nat → List (List Char) → List Char → List (List Char)
  | 0, _, text => [text]
  | _ + 1, [], text => [text]
  | fuel + 1, s0 :: seps1, text =>
      let sn := getSeparator (s0 :: seps1) text
      let sr :=
        if sn.2.isEmpty then none
        else some (fun s => splitTextFuel chunk_size chunk_overlap fuel sn.2 s)
      goSplits chunk_size chunk_overlap sr (splitTextKeepSep sn.1 text) [] []

/-- Separator list configured in `split_documents`
(src/document_processor.py line 59). -/
def rag_separators : List (List Char) :=
  [['\n', '\n'], ['\n'], ['.'], [' '], []]

/-- `split_text` of the configured splitter: recursive character splitting
over `rag_separators`. -/
def split_text (chunk_size chunk_overlap : Nat) (text : List Char) :
    List (List Char) :=
  splitTextFuel chunk_size chunk_overlap rag_separators.length rag_separators text

/-- Metadata carried by a loaded document or an emitted chunk: the keys of
the Python metadata dict that the pipeline reads or writes, each `Option`al
because dict keys may be absent. -/
structure DocMeta where
  source : Option String
  file_name : Option String
  chunk_id : Option Nat
  deriving DecidableEq

/-- A LangChain `Document`: page content plus metadata. -/
structure Document where
  page_content : String
  metadata : DocMeta
  deriving DecidableEq

/-- Metadata stamping on one chunk (src/document_processor.py lines 65-69):
`file_name` is set to the basename of `source` when a source is present, and
`chunk_id` is always set to the enumeration index. -/
def stampOne (i : Nat) (c : Document) : Document :=
  match c.metadata.source with
  | some s =>
      { c with metadata :=
        { c.metadata with file_name := some (basename s), chunk_id := some i } }
  | none =>
      { c with metadata := { c.metadata with chunk_id := some i } }

/-- Python `for i, chunk in enumerate(chunks)` stamping pass, started at
index `i`. -/
def stampFrom (i : Nat) : List Document → List Document
  | [] => []
  | c :: rest => stampOne i c :: stampFrom (i + 1) rest

/-- `split_documents` (src/document_processor.py lines 44-71): construct the
splitter (whose `TextSplitter.__init__` raises `ValueError` when
`chunk_overlap > chunk_size`, before any splitting), split every document's
text (each chunk inheriting a copy of its parent document's metadata, as in
`create_documents`), then stamp `file_name` and a global `chunk_id` over the
concatenated emission order.  The constructor's exception is embedded as an
`Except.error` carrying the Python message. -/
def split_documents (documents : List Document) (chunk_size chunk_overlap : Nat) :
    Except String (List Document) :=
  if chunk_size < chunk_overlap then
    Except.error ( "Got a larger chunk overlap (" ++ toString chunk_overlap ++
      ") than chunk size (" ++ toString chunk_size ++ "), should be smaller.")
  else
    Except.ok (stampFrom 0 ((documents.map (fun doc =>
      (split_text chunk_size chunk_overlap doc.page_content.data).map (fun t =>
        { page_content := String.mk t, metadata := doc.metadata } ))).flatten))

/-- `load_documents` (src/document_processor.py lines 13-41): each loader
runs inside its own `try`/`except`, so a failing loader contributes no
documents and an error line, and the other loader still runs; the function
returns the accumulated documents together with the printed lines. -/
def load_documents (pdf_load text_load : Except String (List Document)) :
    List Document × List String :=
  let pdfs :=
    match pdf_load with
    | Except.ok ds => (ds, [ "Loaded PDF documents"])
    | Except.error e => ([], [ "Error loading PDF files: " ++ e])
  let texts :=
    match text_load with
    | Except.ok ds => (ds, [ "Loaded text documents"])
    | Except.error e => ([], [ "Error loading text files: " ++ e])
  (pdfs.1 ++ texts.1, pdfs.2 ++ texts.2)

/-- HTTP response of the generation service as observed by `query_ollama`:
the status code, the raw body (`response.text`), and the `response` field of
the parsed JSON body (meaningful on success). -/
structure HttpResponse where
  status_code : Nat
  text : String
  response_field : String
  deriving DecidableEq

/-- `query_ollama` (src/rag_query.py lines 13-36) applied to the response of
the POST request: on HTTP 200 it returns the JSON body's `response` field
verbatim, otherwise it returns (it does not raise) the error string built
from the raw response body. -/
def query_ollama (resp : HttpResponse) : String :=
  if resp.status_code = 200 then resp.response_field
  else "Error: " ++ resp.text

/-- Result dictionary returned by `rag_query`. -/
structure RagResult where
  answer : String
  sources : List String
  deriving DecidableEq

/-- Context block rendered for one retrieved chunk, as the spec describes
it: the chunk's `file_name` (literal fallback "Unknown" when absent) and its
text content under the fixed labels. -/
def blockOf (d : Document) : String :=
  "Document: " ++ (d.metadata.file_name.getD "Unknown") ++ "\nContent: " ++
    d.page_content

/-- Single pass of `rag_query` over the retrieved `(doc, score)` pairs
(src/rag_query.py lines 51-55): build the context blocks in rank order and
collect the `source` values of the chunks that have one, in the same order.
The similarity scores are never inspected, so their numeric type is opaque
to this loop; they are embedded as `Int` placeholders. -/
def collectLoop : List (Document × Int) → List String × List String
  | [] => ([], [])
  | (doc, _) :: rest =>
      let acc := collectLoop rest
      (( "Document: " ++ (doc.metadata.file_name.getD "Unknown") ++
          "\nContent: " ++ doc.page_content) :: acc.1,
       match doc.metadata.source with
       | some s => s :: acc.2
       | none => acc.2)

/-- Citation formatting loop of `rag_query` (src/rag_query.py lines 60-62),
`for i, source in enumerate(...)` started at index `i`. -/
def formatSourcesFrom (i : Nat) : List String → List String
  | [] => []
  | s :: rest =>
      ( "[" ++ toString (i + 1) ++ "] " ++ basename s) :: formatSourcesFrom (i + 1) rest

/-- Prompt f-string of `rag_query` (src/rag_query.py lines 65-78) with the
context section, the comma-joined citation line and the question spliced
in. -/
def promptTemplate (context sources_line user_query : String) : String :=
  "You are an educational assistant that answers questions based on course materials.\nUse the following context to answer the question, and cite your sources where possible.\n\nCONTEXT:\n"
    ++ context ++ "\n\nSOURCES:\n" ++ sources_line ++ "\n\nQUESTION:\n"
    ++ user_query ++ "\n\nANSWER:\n"

/-- `rag_query` (src/rag_query.py lines 39-93).  `retrieve` abstracts
`retrieve_documents` (an exception there is an `Except.error`, which
propagates out of `rag_query` before anything else runs, in particular
before any generation request); `ollama_http` abstracts the HTTP transport
of `query_ollama`, mapping the model name and prompt to the service's
response.  The second component of the result logs the prompts of the
generation requests actually issued.  Python materializes `set(sources)`
in an unspecified iteration order; the embedding materializes the same set
in first-kept-occurrence order via `List.dedup`, and the theorems below use
only order-insensitive consequences (membership and multiplicity). -/
def rag_query (retrieve : String → Nat → Except String (List (Document × Int)))
    (ollama_http : String → String → HttpResponse)
    (user_query model : String) (top_k : Nat) :
    Except String RagResult × List String :=
  match retrieve user_query top_k with
  | Except.error e => (Except.error e, [])
  | Except.ok relevant_docs =>
      let cp := collectLoop relevant_docs
      let context := String.intercalate "\n\n" cp.1
      let formatted_sources := formatSourcesFrom 0 cp.2.dedup
      let prompt := promptTemplate context (String.intercalate ", " formatted_sources)
        user_query
      let answer := query_ollama (ollama_http model prompt)
      (Except.ok { answer := answer, sources := cp.2.dedup }, [prompt])

/-- Observable outcome of one CLI invocation: the lines printed, the process
exit status, and whether `rag_query` (and with it the embedding / retrieval
machinery) was ever entered. -/
structure CliTrace where
  printed : List String
  exit_code : Nat
  rag_called : Bool
  deriving DecidableEq

/-- Query-command branch of `main` (src/main.py lines 51-63).  `db_exists`
is the value of `os.path.isdir(args.db_path)`.  When the database directory
is missing, Python prints the error line and returns from `main`, so the
interpreter terminates normally with exit status 0 and `rag_query` is never
called.  Otherwise `rag_query` runs; an exception escaping it aborts the
script with a traceback and exit status 1, and on success the answer and
the enumerated source basenames are printed and the script exits 0. -/
def main_query_command (db_path : String) (db_exists : Bool)
    (retrieve : String → Nat → Except String (List (Document × Int)))
    (ollama_http : String → String → HttpResponse)
    (query model : String) (top_k : Nat) : CliTrace :=
  if db_exists then
    match rag_query retrieve ollama_http query model top_k with
    | (Except.ok r, _) =>
        { printed := [ "\nAnswer:", r.answer, "\nSources:"] ++
            formatSourcesFrom 0 r.sources,
          exit_code := 0, rag_called := true }
    | (Except.error _, _) =>
        { printed := [], exit_code := 1, rag_called := true }
  else
    { printed := [ "Error: Vector database at " ++ db_path ++
        " does not exist. Process documents first."],
      exit_code := 0, rag_called := false }

/-- Relation "the second list is obtained from the first by deleting some
whitespace characters": the characters of the second list appear in the
first in order, and every deleted character satisfies `pyWs`.  This makes
"reconstruction up to whitespace loss" precise: it forbids dropping
non-whitespace characters, inventing characters, reordering, and
duplication. -/
inductive DelWs : List Char → List Char → Prop
  | nil : DelWs [] []
  | keep (c : Char) {s t : List Char} : DelWs s t → DelWs (c :: s) (c :: t)
  | drop (c : Char) {s t : List Char} : pyWs c = true → DelWs s t → DelWs (c :: s) t

lemma delWs_refl (s : List Char) : DelWs s s := by
  induction s with
  | nil => exact DelWs.nil
  | cons c s ih => exact DelWs.keep c ih

lemma delWs_append {a b c d : List Char} (h1 : DelWs a b) (h2 : DelWs c d) :
    DelWs (a ++ c) (b ++ d) := by
  induction h1 with
  | nil => simpa using h2
  | keep x _ ih => exact DelWs.keep x ih
  | drop x hw _ ih => exact DelWs.drop x hw ih

lemma delWs_trans {a b c : List Char} (h1 : DelWs a b) (h2 : DelWs b c) :
    DelWs a c := by
  induction h1 generalizing c with
  | nil => exact h2
  | keep x _ ih =>
      cases h2 with
      | keep _ h2x => exact DelWs.keep x (ih h2x)
      | drop _ hw h2x => exact DelWs.drop x hw (ih h2x)
  | drop x hw _ ih => exact DelWs.drop x hw (ih h2)

lemma delWs_reverse {s t : List Char} (h : DelWs s t) :
    DelWs s.reverse t.reverse := by
  induction h with
  | nil => exact DelWs.nil
  | keep c _ ih =>
      simpa [List.reverse_cons] using delWs_append ih (delWs_refl [c])
  | drop c hw _ ih =>
      simpa [List.reverse_cons] using delWs_append ih (DelWs.drop c hw DelWs.nil)

lemma delWs_dropWhile (s : List Char) : DelWs s (s.dropWhile pyWs) := by
  induction s with
  | nil => exact DelWs.nil
  | cons c s ih =>
      by_cases h : pyWs c = true
      · rw [List.dropWhile_cons, if_pos h]
        exact DelWs.drop c h ih
      · rw [List.dropWhile_cons, if_neg h]
        exact delWs_refl _

lemma delWs_pyStrip (s : List Char) : DelWs s (pyStrip s) := by
  have h1 : DelWs s (s.dropWhile pyWs) := delWs_dropWhile s
  have h2 := delWs_reverse (delWs_dropWhile (s.dropWhile pyWs).reverse)
  rw [List.reverse_reverse] at h2
  exact delWs_trans h1 h2

lemma intercalate_nil_left (l : List (List Char)) :
    List.intercalate ([] : List Char) l = l.flatten := by
  unfold List.intercalate
  induction l with
  | nil => rfl
  | cons a t ih =>
      cases t with
      | nil => simp [List.intersperse_singleton]
      | cons b t2 => simp [List.intersperse_cons_cons] at ih ⊢; simp [ih]

lemma intercalate_cons_cons (sep a b : List Char) (l : List (List Char)) :
    List.intercalate sep (a :: b :: l) = a ++ sep ++ List.intercalate sep (b :: l) := by
  simp [List.intercalate, List.intersperse_cons_cons, List.append_assoc]

lemma intercalate_single (sep a : List Char) : List.intercalate sep [a] = a := by
  simp [List.intercalate, List.intersperse_singleton]

lemma splitAuxF_ne_nil (sep : List Char) :
    ∀ (fuel : Nat) (acc text : List Char), splitAuxF sep fuel acc text ≠ [] := by
  intro fuel
  induction fuel with
  | zero => intro acc text; cases text <;> simp [splitAuxF]
  | succ fuel ih =>
      intro acc text
      cases text with
      | nil => simp [splitAuxF]
      | cons c rest =>
          rw [splitAuxF]
          split
          · simp
          · exact ih _ _

lemma splitAuxF_intercalate (sep : List Char) :
    ∀ (fuel : Nat) (acc text : List Char),
      List.intercalate sep (splitAuxF sep fuel acc text) = acc.reverse ++ text := by
  intro fuel
  induction fuel with
  | zero =>
      intro acc text
      cases text with
      | nil => simp [splitAuxF, intercalate_single]
      | cons c rest => simp [splitAuxF, intercalate_single]
  | succ fuel ih =>
      intro acc text
      cases text with
      | nil => simp [splitAuxF, intercalate_single]
      | cons c rest =>
          rw [splitAuxF]
          split
          · next h =>
              have hpre : sep <+: (c :: rest) :=
                List.isPrefixOf_iff_prefix.mp ((Bool.and_eq_true _ _).mp h).2
              obtain ⟨t, ht⟩ := hpre
              have hdrop : (c :: rest).drop sep.length = t := by
                rw [← ht]; exact List.drop_left sep t
              rcases hq : splitAuxF sep fuel [] ((c :: rest).drop sep.length) with _ | ⟨s0, S⟩
              · exact absurd hq (splitAuxF_ne_nil sep fuel _ _)
              · rw [intercalate_cons_cons]
                have h2 := ih [] ((c :: rest).drop sep.length)
                rw [hq] at h2
                rw [h2]
                simp only [List.reverse_nil, List.nil_append, hdrop]
                rw [List.append_assoc, ← ht]
          · next h =>
              rw [ih (c :: acc) rest]
              simp

lemma flatten_filter_nonempty (l : List (List Char)) :
    (l.filter (fun s => !s.isEmpty)).flatten = l.flatten := by
  induction l with
  | nil => rfl
  | cons a t ih =>
      cases a with
      | nil => simpa [List.filter_cons] using ih
      | cons x xs => simp [List.filter_cons, ih]

lemma flatten_map_singleton (text : List Char) :
    (text.map (fun c => [c])).flatten = text := by
  induction text with
  | nil => rfl
  | cons c r ih => simp [ih]

lemma flatten_attach_sep (sep : List Char) :
    ∀ (rest : List (List Char)) (t0 : List Char),
      (t0 :: rest.map (fun t => sep ++ t)).flatten = List.intercalate sep (t0 :: rest) := by
  intro rest
  induction rest with
  | nil => intro t0; simp [intercalate_single]
  | cons b l ih =>
      intro t0
      rw [intercalate_cons_cons, ← ih b]
      simp [List.append_assoc]

lemma splitTextKeepSep_flatten (sep text : List Char) :
    (splitTextKeepSep sep text).flatten = text := by
  unfold splitTextKeepSep
  rw [flatten_filter_nonempty]
  by_cases h : sep.isEmpty = true
  · rw [if_pos h]
    exact flatten_map_singleton text
  · rw [if_neg h]
    rcases hq : splitAuxF sep text.length [] text with _ | ⟨t0, rest⟩
    · exact absurd hq (splitAuxF_ne_nil sep _ _ _)
    · simp only
      rw [flatten_attach_sep]
      have h2 := splitAuxF_intercalate sep text.length [] text
      rw [hq] at h2
      simpa using h2

lemma splitTextKeepSep_ne_nil {sep text s : List Char}
    (h : s ∈ splitTextKeepSep sep text) : s ≠ [] := by
  unfold splitTextKeepSep at h
  have hp := (List.mem_filter.mp h).2
  intro he
  subst he
  simp at hp

lemma delWs_joinDocs_none {cur : List (List Char)}
    (h : joinDocs [] cur = none) : DelWs cur.flatten [] := by
  have hst := delWs_pyStrip (List.intercalate ([] : List Char) cur)
  rw [intercalate_nil_left] at hst
  simp only [joinDocs] at h
  split at h
  · next he =>
      have hnil : pyStrip (List.intercalate ([] : List Char) cur) = [] :=
        List.isEmpty_iff.mp he
      rw [intercalate_nil_left] at hnil
      rwa [hnil] at hst
  · exact absurd h (by simp)

lemma delWs_joinDocs_some {dd : List Char} {w : List (List Char)}
    (h : joinDocs [] w = some dd) : DelWs w.flatten dd := by
  have hst := delWs_pyStrip (List.intercalate ([] : List Char) w)
  rw [intercalate_nil_left] at hst
  simp only [joinDocs] at h
  split at h
  · exact absurd h (by simp)
  · next =>
      have : pyStrip (List.intercalate ([] : List Char) w) = dd := by
        injection h
      rw [intercalate_nil_left] at this
      rwa [this] at hst

lemma popWhile_zero (chunk_size d_len : Nat) :
    ∀ (cur : List (List Char)) (total : Nat),
      (∀ c ∈ cur, c ≠ []) → total = (cur.map List.length).sum →
      popWhile chunk_size 0 0 d_len cur total = ([], 0) := by
  intro cur
  induction cur with
  | nil =>
      intro total _ ht
      simp only [List.map_nil, List.sum_nil] at ht
      subst ht
      rfl
  | cons c rest ih =>
      intro total hne ht
      have hc : c ≠ [] := hne c (by simp)
      have hcl : 0 < c.length := List.length_pos.mpr hc
      simp only [List.map_cons, List.sum_cons] at ht
      have hcond : total > 0 ∨
          (total + d_len + (if rest.isEmpty then 0 else 0) > chunk_size ∧ 0 < total) := by
        left; omega
      rw [popWhile, if_pos hcond]
      have h2 : total - (c.length + (if rest.isEmpty then 0 else 0)) =
          (rest.map List.length).sum := by
        rw [ite_self]; omega
      rw [h2]
      exact ih _ (fun x hx => hne x (by simp [hx])) rfl

lemma mergeLoop_append (chunk_size chunk_overlap : Nat) (separator : List Char) :
    ∀ (splits cur : List (List Char)) (total : Nat) (docs : List (List Char)),
      mergeLoop chunk_size chunk_overlap separator splits cur total docs =
        docs ++ mergeLoop chunk_size chunk_overlap separator splits cur total [] := by
  intro splits
  induction splits with
  | nil =>
      intro cur total docs
      simp only [mergeLoop]
      cases h : joinDocs separator cur <;> simp
  | cons d rest ih =>
      intro cur total docs
      simp only [mergeLoop]
      cases hj : joinDocs separator cur <;>
        simp only [hj] <;>
        split <;>
        try split
      all_goals
        conv_lhs => rw [ih]
      all_goals
        conv_rhs => rw [ih]
      all_goals simp [List.append_assoc]

lemma mergeLoop_delws (chunk_size : Nat) :
    ∀ (splits cur : List (List Char)) (total : Nat),
      (∀ s ∈ splits, s ≠ []) → (∀ c ∈ cur, c ≠ []) →
      total = (cur.map List.length).sum →
      DelWs (cur.flatten ++ splits.flatten)
        ((mergeLoop chunk_size 0 [] splits cur total []).flatten) := by
  intro splits
  induction splits with
  | nil =>
      intro cur total _ _ _
      simp only [mergeLoop]
      cases hj : joinDocs [] cur with
      | none => simpa using delWs_joinDocs_none hj
      | some dd => simpa using delWs_joinDocs_some hj
  | cons d rest ih =>
      intro cur total hsp hcur ht
      have hd : d ≠ [] := hsp d (by simp)
      have hrest : ∀ s ∈ rest, s ≠ [] := fun s hs => hsp s (by simp [hs])
      simp only [mergeLoop, List.length_nil, ite_self]
      split
      · -- flush: emit the joined stripped window, pop everything (overlap 0)
        have hpw : popWhile chunk_size 0 0 d.length cur total = ([], 0) :=
          popWhile_zero chunk_size d.length cur total hcur ht
        rw [hpw]
        simp only [List.nil_append, ite_self]
        have H2 := ih [d] (0 + d.length + 0) hrest
          (by intro x hx; simp only [List.mem_singleton] at hx; simpa [hx] using hd)
          (by simp)
        cases hj : joinDocs [] cur with
        | none =>
            have H1 : DelWs cur.flatten [] := delWs_joinDocs_none hj
            simpa [List.append_assoc] using delWs_append H1 H2
        | some dd =>
            have H1 : DelWs cur.flatten dd := delWs_joinDocs_some hj
            rw [mergeLoop_append]
            simpa [List.append_assoc] using delWs_append H1 H2
      · -- no flush: extend the window
        have H := ih (cur ++ [d])
          (total + d.length + 0) hrest
          (by
            intro x hx
            rcases List.mem_append.mp hx with h | h
            · exact hcur x h
            · simp only [List.mem_singleton] at h
              simpa [h] using hd)
          (by simp [ht])
        simpa [List.flatten_append, List.append_assoc] using H

lemma mergeSplits_delws (chunk_size : Nat) (splits : List (List Char))
    (h : ∀ s ∈ splits, s ≠ []) :
    DelWs splits.flatten ((mergeSplits chunk_size 0 [] splits).flatten) := by
  have := mergeLoop_delws chunk_size splits [] 0 h (by simp) (by simp)
  simpa [mergeSplits] using this

lemma goSplits_append (chunk_size chunk_overlap : Nat)
    (sr : Option (List Char → List (List Char))) :
    ∀ (splits good final : List (List Char)),
      goSplits chunk_size chunk_overlap sr splits good final =
        final ++ goSplits chunk_size chunk_overlap sr splits good [] := by
  intro splits
  induction splits with
  | nil =>
      intro good final
      simp only [goSplits]
      by_cases h : good.isEmpty = true <;> simp [h]
  | cons s rest ih =>
      intro good final
      simp only [goSplits]
      by_cases h : s.length < chunk_size
      · rw [if_pos h, if_pos h]
        exact ih _ _
      · rw [if_neg h, if_neg h]
        cases sr with
        | none =>
            by_cases hg : good.isEmpty = true
            · simp only [hg, if_pos]
              conv_lhs => rw [ih]
              conv_rhs => rw [ih]
              simp [List.append_assoc]
            · simp only [hg, if_neg]
              conv_lhs => rw [ih]
              conv_rhs => rw [ih]
              simp [List.append_assoc]
        | some f =>
            by_cases hg : good.isEmpty = true
            · simp only [hg, if_pos]
              conv_lhs => rw [ih]
              conv_rhs => rw [ih]
              simp [List.append_assoc]
            · simp only [hg, if_neg]
              conv_lhs => rw [ih]
              conv_rhs => rw [ih]
              simp [List.append_assoc]

lemma goSplits_delws (chunk_size : Nat) (sr : Option (List Char → List (List Char)))
    (hsr : ∀ f s, sr = some f → DelWs s ((f s).flatten)) :
    ∀ (splits good : List (List Char)),
      (∀ s ∈ splits, s ≠ []) → (∀ g ∈ good, g ≠ []) →
      DelWs (good.flatten ++ splits.flatten)
        ((goSplits chunk_size 0 sr splits good []).flatten) := by
  intro splits
  induction splits with
  | nil =>
      intro good _ hg
      simp only [goSplits]
      by_cases h : good.isEmpty = true
      · have : good = [] := List.isEmpty_iff.mp h
        subst this
        simpa using DelWs.nil
      · rw [if_neg h]
        simpa using mergeSplits_delws chunk_size good hg
  | cons s rest ih =>
      intro good hs hg
      have hsne : s ≠ [] := hs s (by simp)
      have hrest : ∀ x ∈ rest, x ≠ [] := fun x hx => hs x (by simp [hx])
      simp only [goSplits]
      by_cases h : s.length < chunk_size
      · rw [if_pos h]
        have H := ih (good ++ [s]) hrest
          (by
            intro x hx
            rcases List.mem_append.mp hx with hx1 | hx1
            · exact hg x hx1
            · simp only [List.mem_singleton] at hx1
              simpa [hx1] using hsne)
        simpa [List.flatten_append, List.append_assoc] using H
      · rw [if_neg h]
        have H3 := ih [] hrest (by simp)
        simp only [List.flatten_nil, List.nil_append] at H3
        have H1 : DelWs good.flatten
            ((if good.isEmpty then []
              else mergeSplits chunk_size 0 [] good) : List (List Char)).flatten := by
          by_cases hge : good.isEmpty = true
          · have : good = [] := List.isEmpty_iff.mp hge
            subst this
            simpa using DelWs.nil
          · rw [if_neg hge]
            exact mergeSplits_delws chunk_size good hg
        cases sr with
        | none =>
            rw [goSplits_append]
            have H2 : DelWs s ([s] : List (List Char)).flatten := by
              simpa using delWs_refl s
            have := delWs_append H1 (delWs_append H2 H3)
            simp only [List.flatten_cons]
            by_cases hge : good.isEmpty = true
            · simp only [hge, if_pos] at this ⊢
              simpa [List.flatten_append, List.append_assoc] using this
            · simp only [hge, if_neg] at this ⊢
              simpa [List.flatten_append, List.append_assoc] using this
        | some f =>
            rw [goSplits_append]
            have H2 : DelWs s ((f s).flatten) := hsr f s rfl
            have := delWs_append H1 (delWs_append H2 H3)
            simp only [List.flatten_cons]
            by_cases hge : good.isEmpty = true
            · simp only [hge, if_pos] at this ⊢
              simpa [List.flatten_append, List.append_assoc] using this
            · simp only [hge, if_neg] at this ⊢
              simpa [List.flatten_append, List.append_assoc] using this

lemma splitTextFuel_delws (chunk_size : Nat) :
    ∀ (fuel : Nat) (seps : List (List Char)) (text : List Char),
      DelWs text ((splitTextFuel chunk_size 0 fuel seps text).flatten) := by
  intro fuel
  induction fuel with
  | zero =>
      intro seps text
      simpa [splitTextFuel] using delWs_refl text
  | succ fuel ih =>
      intro seps text
      cases seps with
      | nil => simpa [splitTextFuel] using delWs_refl text
      | cons s0 seps1 =>
          simp only [splitTextFuel]
          have hmem : ∀ s ∈ splitTextKeepSep (getSeparator (s0 :: seps1) text).1 text,
              s ≠ [] := fun s hs => splitTextKeepSep_ne_nil hs
          have hsr : ∀ (f : List Char → List (List Char)) (s : List Char),
              (if (getSeparator (s0 :: seps1) text).2.isEmpty then none
                else some (fun s =>
                  splitTextFuel chunk_size 0 fuel (getSeparator (s0 :: seps1) text).2 s)) =
                some f →
              DelWs s ((f s).flatten) := by
            intro f s hf
            by_cases he : (getSeparator (s0 :: seps1) text).2.isEmpty = true
            · rw [if_pos he] at hf
              exact absurd hf (by simp)
            · rw [if_neg he] at hf
              have hfe := Option.some.inj hf
              rw [← hfe]
              exact ih _ s
          have H := goSplits_delws chunk_size _ hsr
            (splitTextKeepSep (getSeparator (s0 :: seps1) text).1 text) [] hmem (by simp)
          rw [splitTextKeepSep_flatten] at H
          simpa using H

/-- Claim C2 (amended): at `chunk_overlap = 0`, where trimming the
overlapping regions is trivial, splitting a text and concatenating the
chunk texts reconstructs the original text only up to deletion of
whitespace characters: the concatenation contains every character of the
text in order without duplication, except that whitespace may be dropped
(each chunk is whitespace-stripped at its boundaries, and an all-whitespace
chunk is dropped entirely).  The claim's lossless reconstruction is false;
see the counterexample `split_text_loses_boundary_whitespace`. -/
theorem split_text_reconstructs_up_to_whitespace (chunk_size : Nat) (text : List Char) :
    DelWs text ((split_text chunk_size 0 text).flatten) :=
  splitTextFuel_delws chunk_size rag_separators.length rag_separators text

/-- Counterexample to claim C2 as stated: splitting the five-character text
"ab cd" with `chunk_size = 3` and `chunk_overlap = 0` produces the chunks
"ab" and "cd" (the splitter strips the boundary space), so concatenating
the chunk texts (no overlap to trim at overlap 0) yields "abcd" and does
not reconstruct the original text: a character has been dropped. -/
theorem split_text_loses_boundary_whitespace :
    split_text 3 0 [ 'a', 'b', ' ', 'c', 'd' ] = [[ 'a', 'b' ], [ 'c', 'd' ]] ∧
      (split_text 3 0 [ 'a', 'b', ' ', 'c', 'd' ]).flatten ≠ [ 'a', 'b', ' ', 'c', 'd' ] := by
  decide

lemma stampFrom_chunk_id :
    ∀ (l : List Document) (i j : Nat) (h : j < (stampFrom i l).length),
      ((stampFrom i l).get ⟨j, h⟩).metadata.chunk_id = some (i + j) := by
  intro l
  induction l with
  | nil =>
      intro i j h
      simp [stampFrom] at h
  | cons c rest ih =>
      intro i j h
      cases j with
      | zero =>
          simp only [stampFrom, List.get]
          unfold stampOne
          cases c.metadata.source <;> simp
      | succ j =>
          simp only [stampFrom, List.get]
          have := ih (i + 1) j (by
            simpa [stampFrom] using Nat.lt_of_succ_lt_succ h)
          rw [this]
          congr 1
          omega

lemma collectLoop_fst :
    ∀ docs : List (Document × Int),
      (collectLoop docs).1 = docs.map (fun p => blockOf p.1) := by
  intro docs
  induction docs with
  | nil => rfl
  | cons p rest ih =>
      obtain ⟨doc, score⟩ := p
      simp [collectLoop, blockOf, ih]

lemma collectLoop_mem_sources :
    ∀ (docs : List (Document × Int)) (s : String),
      s ∈ (collectLoop docs).2 ↔ ∃ p ∈ docs, p.1.metadata.source = some s := by
  intro docs s
  induction docs with
  | nil => simp [collectLoop]
  | cons p rest ih =>
      obtain ⟨doc, score⟩ := p
      simp only [collectLoop]
      cases hsrc : doc.metadata.source with
      | none =>
          rw [ih]
          constructor
          · rintro ⟨q, hq, hqs⟩
            exact ⟨q, by simp [hq], hqs⟩
          · rintro ⟨q, hq, hqs⟩
            rcases List.mem_cons.mp hq with h | h
            · subst h
              simp only at hqs
              rw [hsrc] at hqs
              exact absurd hqs (by simp)
            · exact ⟨q, h, hqs⟩
      | some src =>
          simp only [List.mem_cons]
          constructor
          · rintro (h | h)
            · exact ⟨(doc, score), by simp, by simp [hsrc, h]⟩
            · rcases ih.mp h with ⟨q, hq, hqs⟩
              exact ⟨q, by simp [hq], hqs⟩
          · rintro ⟨q, hq, hqs⟩
            rcases hq with h | h
            · subst h
              simp only at hqs
              rw [hsrc] at hqs
              exact Or.inl (Option.some.inj hqs).symm
            · exact Or.inr (ih.mpr ⟨q, h, hqs⟩)

/-- Claim C1: for every chunk sequence produced by a single run of
`split_documents` over any list of input documents, the `chunk_id` metadata
values are assigned globally across all documents in emission order: the
i-th emitted chunk carries `chunk_id = i` (hence the values are unique and
strictly increasing, and are not reset per document). -/
theorem split_documents_chunk_ids
    (documents : List Document) (chunk_size chunk_overlap : Nat)
    (chunks : List Document)
    (h : split_documents documents chunk_size chunk_overlap = Except.ok chunks)
    (j : Nat) (hj : j < chunks.length) :
    (chunks.get ⟨j, hj⟩).metadata.chunk_id = some j := by
  unfold split_documents at h
  split at h
  · exact absurd h (by simp)
  · have hc := Except.ok.inj h
    subst hc
    simpa using stampFrom_chunk_id _ 0 j hj

/-- Concrete two-document run backing C1: chunk number 2 (the first chunk
of the second document) carries the global `chunk_id` 2, not a per-document
0. -/
def c1Chunks : List Document :=
  [{ page_content := "a",
     metadata := { source := some "docs/m.txt", file_name := some "m.txt", chunk_id := some 0 } },
   { page_content := "b",
     metadata := { source := some "docs/m.txt", file_name := some "m.txt", chunk_id := some 1 } },
   { page_content := "c",
     metadata := { source := some "docs/n.txt", file_name := some "n.txt", chunk_id := some 2 } },
   { page_content := "d",
     metadata := { source := some "docs/n.txt", file_name := some "n.txt", chunk_id := some 3 } }]

/-- Witness for C1 on a concrete two-document run with `chunk_size = 1`,
`chunk_overlap = 0`. -/
theorem split_documents_chunk_ids_witness :
    (c1Chunks.get ⟨2, by decide⟩).metadata.chunk_id = some 2 :=
  split_documents_chunk_ids
    [{ page_content := "ab",
       metadata := { source := some "docs/m.txt", file_name := none, chunk_id := none } },
     { page_content := "cd",
       metadata := { source := some "docs/n.txt", file_name := none, chunk_id := none } }]
    1 0 c1Chunks (by rfl) 2 (by decide)

/-- Claim C3 (amended): the chunking operation fails fast with a
configuration error exactly for `chunk_overlap > chunk_size` (the splitter
constructor's check, raised before any splitting is attempted, so no chunks
are produced); for `chunk_overlap = chunk_size` no error is raised and
splitting proceeds — see the counterexample
`split_documents_equal_overlap_not_rejected`. -/
theorem split_documents_overlap_check
    (documents : List Document) (chunk_size chunk_overlap : Nat)
    (h : chunk_size < chunk_overlap) :
    split_documents documents chunk_size chunk_overlap =
      Except.error ( "Got a larger chunk overlap (" ++ toString chunk_overlap ++
        ") than chunk size (" ++ toString chunk_size ++ "), should be smaller.") := by
  unfold split_documents
  rw [if_pos h]

/-- Witness for C3 (amended) at `chunk_size = 1`, `chunk_overlap = 2`. -/
theorem split_documents_overlap_check_witness :
    split_documents
      [{ page_content := "ab",
         metadata := { source := some "m.txt", file_name := none, chunk_id := none } }]
      1 2 =
      Except.error "Got a larger chunk overlap (2) than chunk size (1), should be smaller." :=
  split_documents_overlap_check
    [{ page_content := "ab",
       metadata := { source := some "m.txt", file_name := none, chunk_id := none } }]
    1 2 (by decide)

/-- Counterexample to claim C3 as stated: with `chunk_overlap = chunk_size
= 1` (so `chunk_overlap >= chunk_size` holds) the operation does not fail:
no configuration error is raised and two chunks are produced. -/
theorem split_documents_equal_overlap_not_rejected :
    split_documents
      [{ page_content := "ab",
         metadata := { source := some "m.txt", file_name := none, chunk_id := none } }]
      1 1 =
      Except.ok
        [{ page_content := "a",
           metadata := { source := some "m.txt", file_name := some "m.txt", chunk_id := some 0 } },
         { page_content := "b",
           metadata := { source := some "m.txt", file_name := some "m.txt", chunk_id := some 1 } }] := by
  rfl

/-- Claim C4: for every retrieval result, the `sources` sequence assembled
by `rag_query` contains each distinct `source` metadata value exactly once
(no duplicates, membership by exact string equality), and chunks lacking a
`source` field contribute nothing to it. -/
theorem rag_query_sources_dedup
    (retrieve : String → Nat → Except String (List (Document × Int)))
    (ollama_http : String → String → HttpResponse)
    (q m : String) (k : Nat) (docs : List (Document × Int))
    (h : retrieve q k = Except.ok docs) :
    ∃ r : RagResult, (rag_query retrieve ollama_http q m k).1 = Except.ok r ∧
      r.sources.Nodup ∧
      ∀ s : String, s ∈ r.sources ↔ ∃ p ∈ docs, p.1.metadata.source = some s := by
  unfold rag_query
  rw [h]
  refine ⟨_, rfl, List.nodup_dedup _, ?_⟩
  intro s
  rw [List.mem_dedup]
  exact collectLoop_mem_sources docs s

/-- Concrete ranked list backing the C4 witness: two chunks share the same
`source` and one chunk has none. -/
def c4Docs : List (Document × Int) :=
  [({ page_content := "one",
      metadata := { source := some "x/a.pdf", file_name := some "a.pdf", chunk_id := some 0 } }, 3),
   ({ page_content := "two",
      metadata := { source := none, file_name := none, chunk_id := some 1 } }, 2),
   ({ page_content := "three",
      metadata := { source := some "x/a.pdf", file_name := some "a.pdf", chunk_id := some 2 } }, 1)]

/-- Witness for C4 on a concrete retrieval result with a repeated source
and a sourceless chunk. -/
theorem rag_query_sources_dedup_witness :
    ∃ r : RagResult,
      (rag_query (fun _ _ => Except.ok c4Docs)
        (fun _ _ => { status_code := 200, text := "", response_field := "ok" })
        "q" "llama3:8b" 3).1 = Except.ok r ∧
      r.sources.Nodup ∧
      ∀ s : String, s ∈ r.sources ↔ ∃ p ∈ c4Docs, p.1.metadata.source = some s :=
  rag_query_sources_dedup _ _ "q" "llama3:8b" 3 c4Docs rfl

/-- Claim C5: when the retrieval step fails, `rag_query` propagates the
error to the caller and issues no generation request at all (the request
log is empty, so `query_ollama` is never invoked). -/
theorem rag_query_no_generation_on_retrieval_failure
    (retrieve : String → Nat → Except String (List (Document × Int)))
    (ollama_http : String → String → HttpResponse)
    (q m : String) (k : Nat) (e : String)
    (h : retrieve q k = Except.error e) :
    rag_query retrieve ollama_http q m k = (Except.error e, []) := by
  simp [rag_query, h]

/-- Witness for C5 with a concrete failing retrieval oracle. -/
theorem rag_query_no_generation_on_retrieval_failure_witness :
    rag_query (fun _ _ => Except.error "embedding backend unavailable")
      (fun _ _ => { status_code := 200, text := "", response_field := "ok" })
      "q" "llama3:8b" 5 = (Except.error "embedding backend unavailable", []) :=
  rag_query_no_generation_on_retrieval_failure _ _ "q" "llama3:8b" 5 _ rfl

/-- Claim C6: for a generation-service response with a non-200 HTTP status,
`query_ollama` returns (rather than raises) an answer-channel error string
containing the raw response body; for a 200 response it returns the JSON
body's `response` field verbatim. -/
theorem query_ollama_status_behavior (resp : HttpResponse) :
    (resp.status_code = 200 → query_ollama resp = resp.response_field) ∧
    (resp.status_code ≠ 200 →
      query_ollama resp = "Error: " ++ resp.text ∧
      ∃ pre : String, query_ollama resp = pre ++ resp.text) := by
  constructor
  · intro h
    simp [query_ollama, h]
  · intro h
    constructor
    · simp [query_ollama, h]
    · exact ⟨ "Error: ", by simp [query_ollama, h]⟩

/-- Witness for C6 at a 200 response and at a 500 response. -/
theorem query_ollama_status_behavior_witness :
    query_ollama { status_code := 200, text := "", response_field := "hello" } = "hello" ∧
      query_ollama { status_code := 500, text := "boom", response_field := "" } =
        "Error: boom" :=
  ⟨(query_ollama_status_behavior
      { status_code := 200, text := "", response_field := "hello" }).1 rfl,
   ((query_ollama_status_behavior
      { status_code := 500, text := "boom", response_field := "" }).2 (by decide)).1⟩

/-- Claim C7 (amended): invoking the query CLI command with a database path
that does not exist prints the explicit error message and returns without
ever reaching the retrieval step (no embedding or network call occurs), but
the process terminates with exit status 0, not a non-zero outcome — `main`
prints and returns instead of exiting with an error status; see the
counterexample `main_query_missing_db_exits_zero`. -/
theorem main_query_missing_db
    (db_path : String)
    (retrieve : String → Nat → Except String (List (Document × Int)))
    (ollama_http : String → String → HttpResponse)
    (query model : String) (top_k : Nat) :
    main_query_command db_path false retrieve ollama_http query model top_k =
      { printed := [ "Error: Vector database at " ++ db_path ++
          " does not exist. Process documents first."],
        exit_code := 0, rag_called := false } := rfl

/-- Counterexample to claim C7 as stated: at a concrete invocation with a
missing database path the process outcome is exit status 0, refuting the
claimed non-zero outcome (the error message is printed and retrieval is
never reached, as the amended theorem `main_query_missing_db` states). -/
theorem main_query_missing_db_exits_zero :
    (main_query_command "./chroma_db" false
      (fun _ _ => Except.ok [])
      (fun _ _ => { status_code := 200, text := "", response_field := "" })
      "What is RAG?" "llama3:8b" 5).exit_code = 0 := rfl

/-- Claim C8: a failure while loading one file kind does not abort loading
of the other kind: `load_documents` catches the failure inside that kind's
own try/except, reports it, continues with the remaining loader, and
returns exactly the documents that loaded successfully (in particular both
loaders' documents when both succeed). -/
theorem load_documents_isolated_failures (e : String) (pdfs txts : List Document) :
    load_documents (Except.error e) (Except.ok txts) =
      (txts, [ "Error loading PDF files: " ++ e, "Loaded text documents"]) ∧
    load_documents (Except.ok pdfs) (Except.error e) =
      (pdfs, [ "Loaded PDF documents", "Error loading text files: " ++ e]) ∧
    load_documents (Except.ok pdfs) (Except.ok txts) =
      (pdfs ++ txts, [ "Loaded PDF documents", "Loaded text documents"]) := by
  refine ⟨?_, ?_, ?_⟩ <;> simp [load_documents]

/-- Claim C9: the context section of the prompt built by `rag_query`
consists of one block per retrieved `(chunk, score)` pair in rank order,
each block showing the chunk's `file_name` (literal fallback "Unknown" when
absent) and its text content under the fixed labels, blocks joined by a
double line break; exactly one such prompt is sent to the generator. -/
theorem rag_query_context_format
    (retrieve : String → Nat → Except String (List (Document × Int)))
    (ollama_http : String → String → HttpResponse)
    (q m : String) (k : Nat) (docs : List (Document × Int))
    (h : retrieve q k = Except.ok docs) :
    ∃ cited : String,
      (rag_query retrieve ollama_http q m k).2 =
        [promptTemplate
          (String.intercalate "\n\n" (docs.map (fun p => blockOf p.1)))
          cited q] := by
  refine ⟨String.intercalate ", " (formatSourcesFrom 0 (collectLoop docs).2.dedup), ?_⟩
  unfold rag_query
  rw [h]
  simp only [collectLoop_fst]

/-- Concrete ranked list backing the C9 witness: the second chunk has no
`file_name`, exercising the "Unknown" fallback. -/
def c9Docs : List (Document × Int) :=
  [({ page_content := "hello",
      metadata := { source := some "a/s.txt", file_name := some "s.txt", chunk_id := some 0 } }, 9),
   ({ page_content := "world",
      metadata := { source := none, file_name := none, chunk_id := some 1 } }, 4)]

/-- Witness for C9 on a concrete two-chunk retrieval result. -/
theorem rag_query_context_format_witness :
    ∃ cited : String,
      (rag_query (fun _ _ => Except.ok c9Docs)
        (fun _ _ => { status_code := 200, text := "", response_field := "ok" })
        "q" "llama3:8b" 2).2 =
        [promptTemplate
          (String.intercalate "\n\n" (c9Docs.map (fun p => blockOf p.1)))
          cited "q"] :=
  rag_query_context_format _ _ "q" "llama3:8b" 2 c9Docs rfl

/-- Claim C10: when retrieval returns an empty result list, `rag_query`
does not fail: it still issues exactly one generation request, whose prompt
has empty context and citation sections, and returns a successful result
with an empty sources list. -/
theorem rag_query_empty_retrieval
    (retrieve : String → Nat → Except String (List (Document × Int)))
    (ollama_http : String → String → HttpResponse)
    (q m : String) (k : Nat)
    (h : retrieve q k = Except.ok []) :
    rag_query retrieve ollama_http q m k =
      (Except.ok { answer := query_ollama (ollama_http m (promptTemplate "" "" q)), sources := [] },
       [promptTemplate "" "" q]) := by
  unfold rag_query
  rw [h]
  rfl

/-- Witness for C10 with a concrete empty retrieval oracle. -/
theorem rag_query_empty_retrieval_witness :
    rag_query (fun _ _ => Except.ok [])
      (fun _ _ => { status_code := 200, text := "", response_field := "fine" })
      "q" "llama3:8b" 5 =
      (Except.ok { answer := "fine", sources := [] },
       [promptTemplate "" "" "q"]) := by
  have h := rag_query_empty_retrieval (fun _ _ => Except.ok [])
    (fun _ _ => { status_code := 200, text := "", response_field := "fine" })
    "q" "llama3:8b" 5 rfl
  simpa [query_ollama] using h
